import Mathlib

/-
Verification development for the streaming-jpeg strip encoder
(packages/wasm-engine/src/lib.rs).

The Rust source is shallowly embedded below:
- machine integers become Nat/Int with explicit reductions (`% 2 ^ 32`,
  wrapping 16-bit subtraction) exactly where the Rust types force them,
  assuming release-profile (wrapping) integer semantics;
- `f32` arithmetic is idealized as exact rational arithmetic (the `Frac`
  type below); every theorem below is insensitive to floating-point rounding
  (it concerns the data flow, index arithmetic, integer post-processing, and
  bit emission, not the exact rounded values of transform coefficients);
- the `assert_eq!` precondition checks and the one reachable panicking
  slice index (`DC_LUMA_CODES[cat]` / `DC_CHROMA_CODES[cat]` with
  `cat ≥ 12`) become an `Except StripError` result.
-/

set_option maxRecDepth 10000

/-! ## Bitstream writer (lib.rs lines 335-382) -/

/-- One emitted byte with JPEG byte stuffing: `0xFF` is followed by a literal
`0x00` (lib.rs lines 362-367 and 375-378). -/
def pushStuffed (buf : List Nat) (b : Nat) : List Nat :=
  if b = 255 then buf ++ [b, 0] else buf ++ [b]

/-- State of `BitstreamWriter`: emitted bytes, the `u32` bit accumulator and
the count of pending bits (lib.rs lines 336-340). -/
structure BW where
  buffer : List Nat
  bitBuffer : Nat
  bitCount : Nat

/-- The `while self.bit_count >= 8` loop of `write_bits`
(lib.rs lines 359-368). -/
def BW.drain (s : BW) : BW :=
  if _h : 8 ≤ s.bitCount then
    BW.drain
      { buffer := pushStuffed s.buffer ((s.bitBuffer >>> (s.bitCount - 8)) % 256)
        bitBuffer := s.bitBuffer
        bitCount := s.bitCount - 8 }
  else s
termination_by s.bitCount
decreasing_by simp; omega

/-- `BitstreamWriter::write_bits` (lib.rs lines 351-369): `bits` is a `u16`,
the accumulator a `u32`. -/
def BW.writeBits (s : BW) (bits count : Nat) : BW :=
  if count = 0 then s
  else
    BW.drain
      { buffer := s.buffer
        bitBuffer := ((s.bitBuffer <<< count) ||| (bits % 65536)) % (2 ^ 32)
        bitCount := s.bitCount + count }

/-- `BitstreamWriter::new` (lib.rs lines 343-349). -/
def BW.new : BW := { buffer := [], bitBuffer := 0, bitCount := 0 }

/-- `BitstreamWriter::finish` (lib.rs lines 371-381): flush the pending bits
left-aligned into one final byte, stuffing it as well. -/
def BW.finish (s : BW) : List Nat :=
  if 0 < s.bitCount then
    pushStuffed s.buffer ((s.bitBuffer <<< (8 - s.bitCount)) % 256)
  else s.buffer

/-- A sequence of `write_bits` calls, each `(bits, count)`. -/
def BW.writeMany (s : BW) (l : List (Nat × Nat)) : BW :=
  l.foldl (fun t p => t.writeBits p.1 p.2) s

/-- The stuffing invariant over a byte list: every `0xFF` is immediately
followed by a `0x00`, in particular no trailing `0xFF`. -/
def stuffedOk : List Nat → Bool
  | [] => true
  | [b] => b != 255
  | b :: c :: rest => (b != 255 || c == 0) && stuffedOk (c :: rest)

/-! ## Huffman tables (lib.rs lines 6-63) -/

/-- DC luminance code values (lib.rs line 8). -/
def DC_LUMA_CODES : List Nat :=
  [0x00, 0x02, 0x03, 0x04, 0x05, 0x06, 0x0E, 0x1E, 0x3E, 0x7E, 0xFE, 0x1FE]

/-- DC luminance code sizes (lib.rs line 9). -/
def DC_LUMA_SIZES : List Nat := [2, 3, 3, 3, 3, 3, 4, 5, 6, 7, 8, 9]

/-- DC chrominance code values (lib.rs line 12). -/
def DC_CHROMA_CODES : List Nat :=
  [0x00, 0x01, 0x02, 0x06, 0x0E, 0x1E, 0x3E, 0x7E, 0xFE, 0x1FE, 0x3FE, 0x7FE]

/-- DC chrominance code sizes (lib.rs line 13). -/
def DC_CHROMA_SIZES : List Nat := [2, 2, 2, 3, 4, 5, 6, 7, 8, 9, 10, 11]

/-- Abbreviated AC luminance table: (symbol, code, size) (lib.rs lines 16-35). -/
def AC_LUMA_TABLE : List (Nat × Nat × Nat) :=
  [(0x00, 0x000A, 4), (0x01, 0x0000, 2), (0x02, 0x0001, 2), (0x03, 0x0004, 3),
   (0x04, 0x000B, 4), (0x05, 0x001A, 5), (0x06, 0x0078, 7), (0x07, 0x00F8, 8),
   (0x08, 0x03F6, 10), (0x09, 0xFF82, 16), (0x0A, 0xFF83, 16), (0x11, 0x000C, 4),
   (0x12, 0x001B, 5), (0x13, 0x0079, 7), (0x14, 0x01F6, 9), (0x15, 0x07F6, 11),
   (0x16, 0xFF84, 16), (0xF0, 0xFF00, 16)]

/-- Abbreviated AC chrominance table (lib.rs lines 38-51). -/
def AC_CHROMA_TABLE : List (Nat × Nat × Nat) :=
  [(0x00, 0x0000, 2), (0x01, 0x0001, 2), (0x02, 0x0004, 3), (0x03, 0x000A, 4),
   (0x04, 0x0018, 5), (0x05, 0x0019, 5), (0x06, 0x0038, 6), (0x07, 0x0078, 7),
   (0x08, 0x01F4, 9), (0x09, 0x03F6, 10), (0x0A, 0x0FF4, 12), (0xF0, 0xFF00, 16)]

/-- Zig-zag scan order (lib.rs lines 54-63). -/
def ZIGZAG : List Nat :=
  [0, 1, 8, 16, 9, 2, 3, 10,
   17, 24, 32, 25, 18, 11, 4, 5,
   12, 19, 26, 33, 40, 48, 41, 34,
   27, 20, 13, 6, 7, 14, 21, 28,
   35, 42, 49, 56, 57, 50, 43, 36,
   29, 22, 15, 23, 30, 37, 44, 51,
   58, 59, 52, 45, 38, 31, 39, 46,
   53, 60, 61, 54, 47, 55, 62, 63]

/-! ## Categorization and entropy coding (lib.rs lines 228-333) -/

/-- Bit length of a value below `2 ^ 16`, i.e. `16 - leading_zeros` of a `u16`
(lib.rs line 324), written with structural fuel so the kernel evaluates it. -/
def bitLenAux : Nat → Nat → Nat
  | 0, _ => 0
  | fuel + 1, n => if n = 0 then 0 else bitLenAux fuel (n / 2) + 1

/-- `16 - abs_val.leading_zeros()` for a `u16` magnitude. -/
def bitLen16 (n : Nat) : Nat := bitLenAux 16 n

/-- `categorize` (lib.rs lines 318-333); the input is an `i16` value and
`value.abs() as u16` is its natural absolute value (for `-32768` the wrapping
`abs` followed by the `u16` cast also yields `32768 = Int.natAbs (-32768)`). -/
def categorize (value : Int) : Nat × Nat :=
  if value = 0 then (0, 0)
  else
    (bitLen16 value.natAbs, if 0 < value then value.natAbs else value.natAbs - 1)

/-- Wrapping `i16` subtraction result normalization (release-profile
`block[0] - *dc_predictor`, lib.rs line 249). -/
def wrapI16 (z : Int) : Int := (z + 32768) % 65536 - 32768

/-- Failure modes of a `process_strip` call: the two `assert_eq!` precondition
checks (lib.rs lines 73-83), and the panicking index into the 12-entry DC
code tables when a DC difference categorizes above class 11
(lib.rs lines 255-257). -/
inductive StripError where
  | invalidTableSize
  | pixelBufferSizeMismatch
  | dcCategoryOutOfRange
  deriving DecidableEq

/-- The DC Huffman emission for one categorized difference: the class code,
then (for class > 0) the class-many extra bits (lib.rs lines 252-262).
The table index panics when the class is at least 12. -/
def dcBits (diff : Int) (isLuma : Bool) : Except StripError (List (Nat × Nat)) :=
  let cw := categorize diff
  let codes := if isLuma then DC_LUMA_CODES else DC_CHROMA_CODES
  let sizes := if isLuma then DC_LUMA_SIZES else DC_CHROMA_SIZES
  if cw.1 < codes.length then
    Except.ok ((codes.getD cw.1 0, sizes.getD cw.1 0) ::
      (if 0 < cw.1 then [(cw.2, cw.1)] else []))
  else Except.error StripError.dcCategoryOutOfRange

/-- `encode_ac_symbol` (lib.rs lines 301-315) as the `(code, size)` pair it
writes: first table hit, else the fixed 16-bit all-ones fallback. -/
def encodeACSymbolBits (symbol : Nat) (isLuma : Bool) : Nat × Nat :=
  match (if isLuma then AC_LUMA_TABLE else AC_CHROMA_TABLE).find?
      (fun e => e.1 == symbol) with
  | some e => (e.2.1, e.2.2)
  | none => (65535, 16)

/-- The `for i in (1..64).rev()` search for the last nonzero zig-zag position
(lib.rs lines 268-274); result 0 when all AC coefficients vanish. -/
def lastNzAux (b : List Int) : Nat → Nat
  | 0 => 0
  | i + 1 => if b.getD (ZIGZAG.getD (i + 1) 0) 0 ≠ 0 then i + 1 else lastNzAux b i

/-- Last nonzero zig-zag position of a coefficient block. -/
def lastNz (b : List Int) : Nat := lastNzAux b 63

/-- One event of the AC scan: the ZRL escape, a literal (run, size, extra)
symbol, or the end-of-block symbol. -/
inductive ACEvent where
  | zrl
  | eob
  | lit (run : Nat) (cat : Nat) (extra : Nat)
  deriving DecidableEq

/-- One iteration of the AC loop body (lib.rs lines 276-293), carrying the
`run_length` counter and the emitted events. -/
def acStep (b : List Int) (st : Nat × List ACEvent) (i : Nat) : Nat × List ACEvent :=
  let coeff := b.getD (ZIGZAG.getD i 0) 0
  if coeff = 0 then
    if st.1 + 1 = 16 then (0, st.2 ++ [ACEvent.zrl]) else (st.1 + 1, st.2)
  else
    let cw := categorize coeff
    (0, st.2 ++ [ACEvent.lit st.1 cw.1 cw.2])

/-- The whole AC scan of positions `1..=last_nz` followed by the conditional
end-of-block symbol (lib.rs lines 264-298). -/
def acEvents (b : List Int) : List ACEvent :=
  let last := lastNz b
  ((List.range' 1 last).foldl (acStep b) (0, [])).2 ++
    (if last < 63 then [ACEvent.eob] else [])

/-- The `(bits, count)` writes one AC event performs (lib.rs lines 283-290,
297). -/
def eventBits (isLuma : Bool) : ACEvent → List (Nat × Nat)
  | ACEvent.zrl => [encodeACSymbolBits 0xF0 isLuma]
  | ACEvent.eob => [encodeACSymbolBits 0x00 isLuma]
  | ACEvent.lit run cat extra =>
    [encodeACSymbolBits ((run <<< 4) ||| cat) isLuma, (extra, cat)]

/-- All AC writes of one block. -/
def acBits (b : List Int) (isLuma : Bool) : List (Nat × Nat) :=
  (acEvents b).flatMap (eventBits isLuma)

/-- `encode_block` (lib.rs lines 242-299) as the data it produces: the new DC
predictor (`block[0]`) and the `(bits, count)` writes, or the DC table-index
panic. -/
def encodeBlockBits (b : List Int) (isLuma : Bool) (pred : Int) :
    Except StripError (Int × List (Nat × Nat)) :=
  match dcBits (wrapI16 (b.getD 0 0 - pred)) isLuma with
  | Except.error e => Except.error e
  | Except.ok d => Except.ok (b.getD 0 0, d ++ acBits b isLuma)

/-- One quantized macroblock: luma, Cb and Cr coefficient blocks. -/
abbrev MCU := List Int × List Int × List Int

/-- `huffman_encode_mcu` (lib.rs lines 229-239): luma, then Cb, then Cr, into
the one shared bitstream, threading the DC predictor triple. -/
def encodeMcuBits (m : MCU) (p : Int × Int × Int) :
    Except StripError ((Int × Int × Int) × List (Nat × Nat)) :=
  match encodeBlockBits m.1 true p.1 with
  | Except.error e => Except.error e
  | Except.ok (py, yb) =>
    match encodeBlockBits m.2.1 false p.2.1 with
    | Except.error e => Except.error e
    | Except.ok (pcb, cbb) =>
      match encodeBlockBits m.2.2 false p.2.2 with
      | Except.error e => Except.error e
      | Except.ok (pcr, crb) => Except.ok ((py, pcb, pcr), yb ++ cbb ++ crb)

/-- The per-strip MCU loop of `process_strip` (lib.rs lines 89-108) restricted
to its entropy-coding effect: thread the predictors, concatenate the writes. -/
def encodeAllMcus : List MCU → (Int × Int × Int) →
    Except StripError ((Int × Int × Int) × List (Nat × Nat))
  | [], p => Except.ok (p, [])
  | m :: rest, p =>
    match encodeMcuBits m p with
    | Except.error e => Except.error e
    | Except.ok (p', bs) =>
      match encodeAllMcus rest p' with
      | Except.error e => Except.error e
      | Except.ok (p'', bs') => Except.ok (p'', bs ++ bs')

/-! ## Color conversion, DCT and quantization (lib.rs lines 113-226)

`f32` values are idealized as exact rationals, represented as unreduced
fractions (integer numerator, positive natural denominator) so that the
kernel can evaluate them; the decimal constants below are the decimal
literals of the source.  Every `Frac` built below has a positive denominator
(denominators are only ever multiplied), so the sign of the value is the
sign of the numerator. -/

/-- An exact rational as an unreduced fraction `n / d` with `d` positive by
construction. -/
structure Frac where
  n : Int
  d : Nat
  deriving DecidableEq

instance : Add Frac := ⟨fun a b => ⟨a.n * b.d + b.n * a.d, a.d * b.d⟩⟩

instance : Mul Frac := ⟨fun a b => ⟨a.n * b.n, a.d * b.d⟩⟩

instance : Sub Frac := ⟨fun a b => ⟨a.n * b.d - b.n * a.d, a.d * b.d⟩⟩

instance : Neg Frac := ⟨fun a => ⟨-a.n, a.d⟩⟩

instance : OfScientific Frac :=
  ⟨fun m s e => if s then ⟨(m : Int), 10 ^ e⟩ else ⟨(m : Int) * 10 ^ e, 1⟩⟩

instance (n : Nat) : OfNat Frac n := ⟨⟨(n : Int), 1⟩⟩

instance : NatCast Frac := ⟨fun n => ⟨(n : Int), 1⟩⟩

/-- Floor of the represented rational (denominator positive). -/
def Frac.floor (x : Frac) : Int := Int.fdiv x.n (x.d : Int)

/-- Exact division by a nonzero natural quantization step. -/
def Frac.divNat (x : Frac) (q : Nat) : Frac := ⟨x.n, x.d * q⟩

/-- The clamped source column index `(x + col).min(width - 1)` used for every
sampled pixel (lib.rs line 121). -/
def sampleCol (width x col : Nat) : Nat := min (x + col) (width - 1)

/-- The RGB bytes read for block cell `idx` (row `idx / 8`, column `idx % 8`)
of the macroblock starting at column `x` (lib.rs lines 119-127): offsets
`off`, `off + 1`, `off + 2` with `off = (row * width + px) * 4`; the alpha
byte at `off + 3` is never read. -/
def pixelRGB (pixelData : List Nat) (width x idx : Nat) : Frac × Frac × Frac :=
  let row := idx / 8
  let col := idx % 8
  let px := sampleCol width x col
  let off := (row * width + px) * 4
  ((pixelData.getD off 0 : Frac), (pixelData.getD (off + 1) 0 : Frac),
    (pixelData.getD (off + 2) 0 : Frac))

/-- `rgb_to_ycbcr_block` (lib.rs lines 114-138): the luma, Cb and Cr sample
blocks, row-major. -/
def rgb_to_ycbcr_block (pixelData : List Nat) (width x : Nat) :
    List Frac × List Frac × List Frac :=
  ((List.range 64).map (fun idx =>
      let c := pixelRGB pixelData width x idx
      0.299 * c.1 + 0.587 * c.2.1 + 0.114 * c.2.2 - 128),
   (List.range 64).map (fun idx =>
      let c := pixelRGB pixelData width x idx
      let cb := -0.168736 * c.1 - 0.331264 * c.2.1 + 0.5 * c.2.2
      cb),
   (List.range 64).map (fun idx =>
      let c := pixelRGB pixelData width x idx
      0.5 * c.1 - 0.418688 * c.2.1 - 0.081312 * c.2.2))

/-- `dct_1d` (lib.rs lines 172-216): the 8-point butterfly, output in natural
order `[data 0, …, data 7]`. -/
def dct_1d (d : List Frac) : List Frac :=
  let tmp0 := d.getD 0 0 + d.getD 7 0
  let tmp7 := d.getD 0 0 - d.getD 7 0
  let tmp1 := d.getD 1 0 + d.getD 6 0
  let tmp6 := d.getD 1 0 - d.getD 6 0
  let tmp2 := d.getD 2 0 + d.getD 5 0
  let tmp5 := d.getD 2 0 - d.getD 5 0
  let tmp3 := d.getD 3 0 + d.getD 4 0
  let tmp4 := d.getD 3 0 - d.getD 4 0
  let tmp10 := tmp0 + tmp3
  let tmp13 := tmp0 - tmp3
  let tmp11 := tmp1 + tmp2
  let tmp12 := tmp1 - tmp2
  let out0 := (tmp10 + tmp11) * 0.353553391
  let out4 := (tmp10 - tmp11) * 0.353553391
  let z1 := (tmp12 + tmp13) * 0.707106781
  let out2 := tmp13 * 0.353553391 + z1 * 0.353553391
  let out6 := tmp13 * 0.353553391 - z1 * 0.353553391
  let a10 := tmp4 + tmp5
  let a11 := tmp5 + tmp6
  let a12 := tmp6 + tmp7
  let z5 := (a10 - a12) * 0.382683433
  let z2 := a10 * 0.541196100 + z5
  let z4 := a12 * 1.306562965 + z5
  let z3 := a11 * 0.707106781
  let z11 := tmp7 + z3
  let z13 := tmp7 - z3
  let out5 := z13 + z2
  let out3 := z13 - z2
  let out1 := z11 + z4
  let out7 := z11 - z4
  [out0, out1, out2, out3, out4, out5, out6, out7]

/-- Row `i` of a row-major 8×8 block. -/
def getRow8 (b : List Frac) (i : Nat) : List Frac :=
  (List.range 8).map (fun j => b.getD (i * 8 + j) 0)

/-- The row pass of `forward_dct` (lib.rs lines 154-157): `dct_1d` on each of
the 8 rows. -/
def rowPass (b : List Frac) : List Frac :=
  ((List.range 8).map (fun i => dct_1d (getRow8 b i))).flatten

/-- Transposition of a row-major 8×8 block. -/
def transpose64 (b : List Frac) : List Frac :=
  (List.range 64).map (fun k => b.getD ((k % 8) * 8 + k / 8) 0)

/-- `forward_dct` (lib.rs lines 141-170): rows then columns; the column loop
(gather column `i`, `dct_1d`, scatter back) is the transposed row pass. -/
def forward_dct (b : List Frac) : List Frac :=
  transpose64 (rowPass (transpose64 (rowPass b)))

/-- Rust `f32::round`: round half away from zero (the sign test reads the
numerator; denominators are positive by construction). -/
def roundQ (x : Frac) : Int :=
  if 0 ≤ x.n then (x + 0.5).floor else -((-x + 0.5).floor)

/-- The saturating Rust `as i16` cast from a finite float. -/
def clampI16 (z : Int) : Int :=
  if z < -32768 then -32768 else if 32767 < z then 32767 else z

/-- `quantize` (lib.rs lines 219-226): per-position division, `f32::round`,
`as i16`.  A zero table entry makes the IEEE division yield `±inf` (or `NaN`
for a zero coefficient), which the saturating cast sends to `32767`,
`-32768` (resp. 0). -/
def quantize (dctBlock : List Frac) (qTable : List Nat) : List Int :=
  (List.range 64).map (fun i =>
    let q := qTable.getD i 0
    let x := dctBlock.getD i 0
    if q = 0 then (if 0 < x.n then 32767 else if x.n < 0 then -32768 else 0)
    else clampI16 (roundQ (x.divNat q)))

/-! ## The pipeline orchestrator (lib.rs lines 67-111) -/

/-- The macroblock column starts `for x in (0..width).step_by(8)`
(lib.rs line 89). -/
def mcuStarts (width : Nat) : List Nat :=
  (List.range ((width + 7) / 8)).map (fun i => i * 8)

/-- Stages 1-3 for every macroblock column of the strip: color conversion,
DCT, quantization (lib.rs lines 90-104). -/
def stripMcus (pixelData : List Nat) (width : Nat) (lumaQ chromaQ : List Nat) :
    List MCU :=
  (mcuStarts width).map (fun x =>
    let c := rgb_to_ycbcr_block pixelData width x
    (quantize (forward_dct c.1) lumaQ,
     quantize (forward_dct c.2.1) chromaQ,
     quantize (forward_dct c.2.2) chromaQ))

/-- `process_strip` (lib.rs lines 67-111): the two `assert_eq!` precondition
checks, then one fresh bitstream writer and one zeroed DC predictor triple,
the MCU loop, and the final flush. -/
def process_strip (pixelData : List Nat) (width : Nat)
    (lumaQ chromaQ : List Nat) : Except StripError (List Nat) :=
  if lumaQ.length = 64 then
    if chromaQ.length = 64 then
      if pixelData.length = width * 8 * 4 then
        match encodeAllMcus (stripMcus pixelData width lumaQ chromaQ) (0, 0, 0) with
        | Except.error e => Except.error e
        | Except.ok (_, writes) => Except.ok ((BW.new.writeMany writes).finish)
      else Except.error StripError.pixelBufferSizeMismatch
    else Except.error StripError.invalidTableSize
  else Except.error StripError.invalidTableSize

/-! ## Spec-side definitions used to settle individual claims -/

/-- Modelled from the spec: the canonical JPEG rule for decoding a size class
and its extra bits back to a signed value (ITU T.81 EXTEND): with class
`cat > 0`, extra bits below `2 ^ (cat - 1)` denote the negative value
`extra - 2 ^ cat + 1`, the rest denote `extra` itself; class 0 denotes 0. -/
def decodeCat (cat extra : Nat) : Int :=
  if cat = 0 then 0
  else if 2 ^ (cat - 1) ≤ extra then (extra : Int)
  else (extra : Int) - 2 ^ cat + 1

/-- Round trip of the claim: categorize, then decode canonically. -/
def roundTripB (v : Int) : Bool :=
  decodeCat (categorize v).1 (categorize v).2 == v

/-- A natural number that is an exact power of two. -/
def isPow2 (n : Nat) : Bool := n != 0 && (n &&& (n - 1)) == 0

/-- The round-trip characterization to be checked at value `n - 2047`. -/
def rtClaim (n : Nat) : Bool :=
  roundTripB ((n : Int) - 2047) ==
    (decide (0 ≤ (n : Int) - 2047) || isPow2 ((n : Int) - 2047).natAbs)

/-- Exhaustive check of `rtClaim` below `4 * m`, four indices per recursion
step so kernel evaluation stays shallow. -/
def checkRT : Nat → Bool
  | 0 => true
  | n + 1 => rtClaim (4 * n) && rtClaim (4 * n + 1) && rtClaim (4 * n + 2) &&
      rtClaim (4 * n + 3) && checkRT n

/-- Modelled from the spec (§4.4 DC path): the DC write list for one block
given the externally supplied difference. -/
def specBlockBits (b : List Int) (diff : Int) (isLuma : Bool) :
    Except StripError (List (Nat × Nat)) :=
  match dcBits diff isLuma with
  | Except.error e => Except.error e
  | Except.ok d => Except.ok (d ++ acBits b isLuma)

/-- Modelled from the spec (§4.4, §9): the stateless DC-difference encoder:
block `i` of a component encodes `dc i - dc (i-1)` (`i16` subtraction) with
`dc (-1) = 0`, blocks in Y, Cb, Cr order. -/
def specEncodeMcus : List MCU → Int → Int → Int →
    Except StripError (List (Nat × Nat))
  | [], _, _, _ => Except.ok []
  | m :: rest, py, pcb, pcr =>
    match specBlockBits m.1 (wrapI16 (m.1.getD 0 0 - py)) true with
    | Except.error e => Except.error e
    | Except.ok yb =>
      match specBlockBits m.2.1 (wrapI16 (m.2.1.getD 0 0 - pcb)) false with
      | Except.error e => Except.error e
      | Except.ok cbb =>
        match specBlockBits m.2.2 (wrapI16 (m.2.2.getD 0 0 - pcr)) false with
        | Except.error e => Except.error e
        | Except.ok crb =>
          match specEncodeMcus rest (m.1.getD 0 0) (m.2.1.getD 0 0)
              (m.2.2.getD 0 0) with
          | Except.error e => Except.error e
          | Except.ok restb => Except.ok (yb ++ cbb ++ crb ++ restb)

/-- Is an AC event the end-of-block symbol? -/
def isEobEvent : ACEvent → Bool
  | ACEvent.eob => true
  | _ => false

/-- Number of end-of-block symbols in an event list. -/
def countEob (l : List ACEvent) : Nat := (l.filter isEobEvent).length

/-- The run carried into a literal symbol stays below 16. -/
def eventRunOk : ACEvent → Bool
  | ACEvent.lit run _ _ => run ≤ 15
  | _ => true

/-- Observer: did the call fail on the DC category table index? -/
def isDcCategoryError : Except StripError (List Nat) → Bool
  | Except.error StripError.dcCategoryOutOfRange => true
  | _ => false

/-- Observer: is an error one of the two boundary size checks? -/
def isSizeError : StripError → Bool
  | StripError.invalidTableSize => true
  | StripError.pixelBufferSizeMismatch => true
  | StripError.dcCategoryOutOfRange => false

/-! ## Concrete inputs for counterexamples and witnesses -/

/-- A 64-entry luma quantization table whose first entry is zero. -/
def cexLumaTable : List Nat := 0 :: List.replicate 63 1

/-- The all-ones 64-entry quantization table. -/
def onesTable : List Nat := List.replicate 64 1

/-- An all-zero (black, transparent) width-8 RGBA strip: 8 rows × 8 columns
× 4 bytes. -/
def zeroPixels8 : List Nat := List.replicate 256 0

/-- A width-1 RGBA strip, all bytes zero. -/
def alphaPixelsA : List Nat := List.replicate 32 0

/-- The same width-1 strip with every alpha byte set to 7. -/
def alphaPixelsB : List Nat :=
  (List.range 32).map (fun i => if i % 4 = 3 then 7 else 0)

/-! # Lemmas and claim theorems -/

theorem stuffedOk_append {l m : List Nat} (hl : stuffedOk l = true)
    (hm : stuffedOk m = true) : stuffedOk (l ++ m) = true := by
  induction l with
  | nil => simpa using hm
  | cons a t ih =>
    cases t with
    | nil =>
      cases m with
      | nil => simpa using hl
      | cons c m' =>
        simp only [stuffedOk] at hl
        simp only [List.cons_append, List.nil_append, stuffedOk,
          Bool.and_eq_true, Bool.or_eq_true]
        exact ⟨Or.inl hl, hm⟩
    | cons b t' =>
      simp only [stuffedOk, Bool.and_eq_true] at hl
      simp only [List.cons_append, stuffedOk, Bool.and_eq_true]
      exact ⟨hl.1, by simpa using ih hl.2⟩

theorem stuffedOk_push {l : List Nat} (hl : stuffedOk l = true) (b : Nat) :
    stuffedOk (pushStuffed l b) = true := by
  unfold pushStuffed
  split
  · exact stuffedOk_append hl (by simp [stuffedOk])
  · next hb => exact stuffedOk_append hl (by simp [stuffedOk, hb])

theorem drain_stuffed_aux (n : Nat) :
    ∀ s : BW, s.bitCount ≤ n → stuffedOk s.buffer = true →
      stuffedOk (BW.drain s).buffer = true := by
  induction n with
  | zero =>
    intro s hle hb
    have h8 : ¬ 8 ≤ s.bitCount := by omega
    rw [BW.drain]
    simp only [h8, dite_false]
    exact hb
  | succ n ih =>
    intro s hle hb
    by_cases h8 : 8 ≤ s.bitCount
    · rw [BW.drain]
      simp only [h8, dite_true]
      exact ih _ (by simp; omega) (stuffedOk_push hb _)
    · rw [BW.drain]
      simp only [h8, dite_false]
      exact hb

theorem drain_stuffed (s : BW) (hb : stuffedOk s.buffer = true) :
    stuffedOk (BW.drain s).buffer = true :=
  drain_stuffed_aux s.bitCount s le_rfl hb

theorem writeBits_stuffed (s : BW) (hb : stuffedOk s.buffer = true)
    (bits count : Nat) : stuffedOk (s.writeBits bits count).buffer = true := by
  unfold BW.writeBits
  split
  · exact hb
  · exact drain_stuffed _ hb

theorem writeMany_stuffed (l : List (Nat × Nat)) :
    ∀ s : BW, stuffedOk s.buffer = true →
      stuffedOk (s.writeMany l).buffer = true := by
  induction l with
  | nil => intro s h; exact h
  | cons p t ih => intro s h; exact ih _ (writeBits_stuffed s h p.1 p.2)

theorem finish_stuffed (s : BW) (hb : stuffedOk s.buffer = true) :
    stuffedOk s.finish = true := by
  unfold BW.finish
  split
  · exact stuffedOk_push hb _
  · exact hb

/-- C1: for every sequence of `write_bits` calls followed by `finish`, the
returned byte sequence never contains a literal `0xFF` byte that is not
immediately followed by a `0x00` stuffing byte (the final flush included). -/
theorem C1_bitstream_stuffing (ops : List (Nat × Nat)) :
    stuffedOk ((BW.new.writeMany ops).finish) = true :=
  finish_stuffed _ (writeMany_stuffed ops BW.new rfl)

theorem countEob_append (l m : List ACEvent) :
    countEob (l ++ m) = countEob l + countEob m := by
  simp [countEob, List.filter_append]

theorem acFold_inv (b : List Int) (l : List Nat) :
    ∀ st : Nat × List ACEvent, st.1 ≤ 15 → st.2.all eventRunOk = true →
      (l.foldl (acStep b) st).1 ≤ 15 ∧
        (l.foldl (acStep b) st).2.all eventRunOk = true := by
  induction l with
  | nil => intro st h1 h2; exact ⟨h1, h2⟩
  | cons i t ih =>
    intro st h1 h2
    simp only [List.foldl_cons]
    have hstep : (acStep b st i).1 ≤ 15 ∧
        (acStep b st i).2.all eventRunOk = true := by
      simp only [acStep]
      by_cases hc : b.getD (ZIGZAG.getD i 0) 0 = 0
      · rw [if_pos hc]
        by_cases hr : st.1 + 1 = 16
        · rw [if_pos hr]
          exact ⟨by simp, by simp [List.all_append, h2, eventRunOk]⟩
        · rw [if_neg hr]
          exact ⟨by omega, h2⟩
      · rw [if_neg hc]
        exact ⟨by simp, by simp [List.all_append, h2, eventRunOk, h1]⟩
    exact ih _ hstep.1 hstep.2

theorem acFold_noEob (b : List Int) (l : List Nat) :
    ∀ st : Nat × List ACEvent, countEob st.2 = 0 →
      countEob (l.foldl (acStep b) st).2 = 0 := by
  induction l with
  | nil => intro st h; exact h
  | cons i t ih =>
    intro st h
    simp only [List.foldl_cons]
    apply ih
    simp only [acStep]
    by_cases hc : b.getD (ZIGZAG.getD i 0) 0 = 0
    · rw [if_pos hc]
      by_cases hr : st.1 + 1 = 16
      · rw [if_pos hr]
        show countEob (st.2 ++ [ACEvent.zrl]) = 0
        rw [countEob_append, h]
        rfl
      · rw [if_neg hr]
        exact h
    · rw [if_neg hc]
      show countEob (st.2 ++ [ACEvent.lit st.1 _ _]) = 0
      rw [countEob_append, h]
      rfl

theorem lastNzAux_le (b : List Int) : ∀ n, lastNzAux b n ≤ n := by
  intro n
  induction n with
  | zero => simp [lastNzAux]
  | succ i ih =>
    simp only [lastNzAux]
    split
    · exact le_rfl
    · omega

/-- C5: the End-Of-Block symbol is emitted after the AC scan exactly when the
last nonzero zig-zag position is below 63 (including the all-zero-AC case);
that position equals 63 exactly when the coefficient at zig-zag position 63
is nonzero, and then no EOB is emitted. -/
theorem C5_eob_iff (b : List Int) :
    countEob (acEvents b) = (if lastNz b < 63 then 1 else 0) ∧
      (lastNz b = 63 ↔ b.getD (ZIGZAG.getD 63 0) 0 ≠ 0) := by
  constructor
  · unfold acEvents
    rw [countEob_append,
      acFold_noEob b (List.range' 1 (lastNz b)) (0, []) rfl]
    by_cases hl : lastNz b < 63
    · simp [hl, countEob, isEobEvent]
    · simp [hl, countEob]
  · have hle : lastNzAux b 62 ≤ 62 := lastNzAux_le b 62
    have hstep : lastNz b =
        if b.getD (ZIGZAG.getD 63 0) 0 ≠ 0 then 63 else lastNzAux b 62 := rfl
    constructor
    · intro h63
      by_contra hc
      rw [hstep, if_neg (not_not_intro hc)] at h63
      omega
    · intro hc
      rw [hstep, if_pos hc]

/-- C6: during the AC scan, the zero-run count carried into any literal
(run, size) symbol never exceeds 15: the ZRL escape fires at 16 accumulated
zeros and resets the counter, and every nonzero coefficient resets it. -/
theorem C6_run_length_invariant (b : List Int) :
    (acEvents b).all eventRunOk = true := by
  unfold acEvents
  rw [List.all_append, Bool.and_eq_true]
  constructor
  · exact (acFold_inv b (List.range' 1 (lastNz b)) (0, []) (by omega) rfl).2
  · split <;> simp [eventRunOk]

/-- C7: an AC symbol present in the selected abbreviated table is emitted
with exactly its table (code, size) pair; a symbol absent from the table is
emitted as the fixed 16-bit all-ones code `0xFFFF` instead of failing. -/
theorem C7_ac_fallback :
    (∀ e ∈ AC_LUMA_TABLE, encodeACSymbolBits e.1 true = (e.2.1, e.2.2)) ∧
    (∀ e ∈ AC_CHROMA_TABLE, encodeACSymbolBits e.1 false = (e.2.1, e.2.2)) ∧
    (∀ s, s < 256 → AC_LUMA_TABLE.all (fun e => e.1 != s) = true →
      encodeACSymbolBits s true = (65535, 16)) ∧
    (∀ s, s < 256 → AC_CHROMA_TABLE.all (fun e => e.1 != s) = true →
      encodeACSymbolBits s false = (65535, 16)) := by
  refine ⟨by decide, by decide, by decide, by decide⟩

/-- C3 counterexample: `categorize` maps both 2 and −3 to class 2 with extra
bits 2, so no decoding rule — in particular not the canonical JPEG one, which
returns 2 here — can reproduce both; round-trip fails at −3. -/
theorem C3_counterexample :
    categorize (-3) = (2, 2) ∧ categorize 2 = (2, 2) ∧
      decodeCat 2 2 = 2 ∧ ((-3 : Int) ≠ 2) := by decide

theorem checkRT_sound : ∀ m : Nat, checkRT m = true → ∀ n : Nat, n < 4 * m →
    rtClaim n = true := by
  intro m
  induction m with
  | zero => intro _ n hn; omega
  | succ m ih =>
    intro hck n hn
    simp only [checkRT, Bool.and_eq_true] at hck
    obtain ⟨⟨⟨⟨h0, h1⟩, h2⟩, h3⟩, hrest⟩ := hck
    have hc : n < 4 * m ∨ n = 4 * m ∨ n = 4 * m + 1 ∨ n = 4 * m + 2 ∨
        n = 4 * m + 3 := by omega
    rcases hc with h | h | h | h | h
    · exact ih hrest n h
    all_goals subst h
    · exact h0
    · exact h1
    · exact h2
    · exact h3

set_option maxHeartbeats 2000000 in
/-- C3 amended: over −2047..2047 (written as `n - 2047` for `n < 4095`),
decoding `categorize`'s output under the canonical JPEG rule reproduces the
value exactly when the value is nonnegative or its magnitude is a power of
two; for a negative value of any other magnitude the round trip fails,
because the code emits `|v| - 1` instead of the canonical one's-complement
extra bits. -/
theorem C3_amended_roundtrip : ∀ n : Nat, n < 4095 →
    roundTripB ((n : Int) - 2047) =
      (decide (0 ≤ (n : Int) - 2047) || isPow2 ((n : Int) - 2047).natAbs) := by
  intro n hn
  have h := checkRT_sound 1024 (by decide) n (by omega)
  simpa [rtClaim] using h

/-- Concrete instance of the amended C3 round-trip characterization at
`n = 2044`, i.e. value −3. -/
theorem C3_amended_witness :
    roundTripB (((2044 : Nat) : Int) - 2047) =
      (decide (0 ≤ ((2044 : Nat) : Int) - 2047) ||
        isPow2 (((2044 : Nat) : Int) - 2047).natAbs) :=
  C3_amended_roundtrip 2044 (by decide)

/-- C9: width 10 yields exactly the two macroblock columns 0 and 8; in the
second column the sampled source column is clamped to 9 for logical columns
2..7 (i.e. image columns 10..15); in general the sampled column index is
`min (x + col) (width - 1)`. -/
theorem C9_edge_clamp :
    mcuStarts 10 = [0, 8] ∧
      ((List.range 8).all
        (fun col => decide (col < 2) || decide (sampleCol 10 8 col = 9)) = true) ∧
      (∀ width x col : Nat, sampleCol width x col = min (x + col) (width - 1)) :=
  ⟨by decide, by decide, fun _ _ _ => rfl⟩

theorem dcBits_err {diff : Int} {l : Bool} {e : StripError}
    (h : dcBits diff l = Except.error e) :
    e = StripError.dcCategoryOutOfRange := by
  simp only [dcBits] at h
  split at h <;> split at h <;> simp at h
  · exact h.symm
  · exact h.symm

theorem encodeBlockBits_err {b : List Int} {l : Bool} {p : Int} {e : StripError}
    (h : encodeBlockBits b l p = Except.error e) :
    e = StripError.dcCategoryOutOfRange := by
  unfold encodeBlockBits at h
  cases hd : dcBits (wrapI16 (b.getD 0 0 - p)) l with
  | error e' =>
    rw [hd] at h
    simp at h
    subst h
    exact dcBits_err hd
  | ok d =>
    rw [hd] at h
    simp at h

theorem encodeMcuBits_err {m : MCU} {p : Int × Int × Int} {e : StripError}
    (h : encodeMcuBits m p = Except.error e) :
    e = StripError.dcCategoryOutOfRange := by
  unfold encodeMcuBits at h
  cases hy : encodeBlockBits m.1 true p.1 with
  | error e' =>
    rw [hy] at h
    simp at h
    subst h
    exact encodeBlockBits_err hy
  | ok ry =>
    obtain ⟨py, yb⟩ := ry
    rw [hy] at h
    cases hcb : encodeBlockBits m.2.1 false p.2.1 with
    | error e' =>
      rw [hcb] at h
      simp at h
      subst h
      exact encodeBlockBits_err hcb
    | ok rcb =>
      obtain ⟨pcb, cbb⟩ := rcb
      rw [hcb] at h
      cases hcr : encodeBlockBits m.2.2 false p.2.2 with
      | error e' =>
        rw [hcr] at h
        simp at h
        subst h
        exact encodeBlockBits_err hcr
      | ok rcr =>
        obtain ⟨pcr, crb⟩ := rcr
        rw [hcr] at h
        simp at h

theorem encodeAllMcus_err : ∀ (mcus : List MCU) (p : Int × Int × Int)
    (e : StripError), encodeAllMcus mcus p = Except.error e →
      e = StripError.dcCategoryOutOfRange := by
  intro mcus
  induction mcus with
  | nil => intro p e h; simp [encodeAllMcus] at h
  | cons m rest ih =>
    intro p e h
    unfold encodeAllMcus at h
    cases hm : encodeMcuBits m p with
    | error e' =>
      rw [hm] at h
      simp at h
      subst h
      exact encodeMcuBits_err hm
    | ok r =>
      obtain ⟨p', bs⟩ := r
      rw [hm] at h
      simp only [] at h
      cases hr : encodeAllMcus rest p' with
      | error e' =>
        rw [hr] at h
        simp at h
        subst h
        exact ih p' e' hr
      | ok r2 =>
        obtain ⟨p'', bs'⟩ := r2
        rw [hr] at h
        simp at h

theorem process_strip_err_classify (px : List Nat) (w : Nat) (lt ct : List Nat)
    (h1 : lt.length = 64) (h2 : ct.length = 64) (h3 : px.length = w * 8 * 4) :
    ∀ e, process_strip px w lt ct = Except.error e →
      e = StripError.dcCategoryOutOfRange := by
  intro e h
  rw [process_strip, if_pos h1, if_pos h2, if_pos h3] at h
  cases hm : encodeAllMcus (stripMcus px w lt ct) (0, 0, 0) with
  | error e' =>
    rw [hm] at h
    simp at h
    subst h
    exact encodeAllMcus_err _ _ _ hm
  | ok r =>
    obtain ⟨p, ws⟩ := r
    rw [hm] at h
    simp at h

/-- C2 amended: the call returns one of the two boundary validation errors
exactly when a quantization table does not have 64 entries or the pixel
buffer length differs from `width * 8 * 4`; the checks run before any
encoding stage and an error carries no partial output.  Passing both checks
does not guarantee success, however: the remaining failure mode is the DC
Huffman class running past the 12-entry code table (see the
counterexample, reachable through a zero quantization step). -/
theorem C2_amended_boundary (px : List Nat) (w : Nat) (lt ct : List Nat) :
    (∃ e, process_strip px w lt ct = Except.error e ∧ isSizeError e = true) ↔
      (lt.length ≠ 64 ∨ ct.length ≠ 64 ∨ px.length ≠ w * 8 * 4) := by
  constructor
  · rintro ⟨e, he, hse⟩
    by_contra hno
    push_neg at hno
    obtain ⟨g1, g2, g3⟩ := hno
    have hdc := process_strip_err_classify px w lt ct g1 g2 g3 e he
    subst hdc
    exact absurd hse (by decide)
  · intro hcond
    by_cases g1 : lt.length = 64
    · by_cases g2 : ct.length = 64
      · have g3 : px.length ≠ w * 8 * 4 := by tauto
        refine ⟨StripError.pixelBufferSizeMismatch, ?_, rfl⟩
        rw [process_strip, if_pos g1, if_pos g2, if_neg g3]
      · refine ⟨StripError.invalidTableSize, ?_, rfl⟩
        rw [process_strip, if_pos g1, if_neg g2]
    · refine ⟨StripError.invalidTableSize, ?_, rfl⟩
      rw [process_strip, if_neg g1]

/-- C8 amended: `process_strip` validates only the table and buffer sizes at
entry; strict positivity of the quantization entries is not validated
anywhere, so a call whose tables merely have 64 entries is never rejected at
the boundary, and a zero entry reaches the quantizer (see the
counterexample). -/
theorem C8_amended_no_positivity_check (px : List Nat) (w : Nat)
    (lt ct : List Nat) (h1 : lt.length = 64) (h2 : ct.length = 64)
    (h3 : px.length = w * 8 * 4) :
    process_strip px w lt ct ≠ Except.error StripError.invalidTableSize ∧
      process_strip px w lt ct ≠ Except.error StripError.pixelBufferSizeMismatch := by
  constructor <;> intro hc
  · exact absurd (process_strip_err_classify px w lt ct h1 h2 h3 _ hc) (by decide)
  · exact absurd (process_strip_err_classify px w lt ct h1 h2 h3 _ hc) (by decide)

/-- Concrete instance of the amended C8 statement: the zero-containing
64-entry table passes the entry validation. -/
theorem C8_amended_witness :
    process_strip zeroPixels8 8 cexLumaTable onesTable ≠
        Except.error StripError.invalidTableSize ∧
      process_strip zeroPixels8 8 cexLumaTable onesTable ≠
        Except.error StripError.pixelBufferSizeMismatch :=
  C8_amended_no_positivity_check zeroPixels8 8 cexLumaTable onesTable
    (by decide) (by decide) (by decide)

theorem encodeBlock_spec (b : List Int) (l : Bool) (p : Int) :
    encodeBlockBits b l p =
      Except.map (fun bs => (b.getD 0 0, bs))
        (specBlockBits b (wrapI16 (b.getD 0 0 - p)) l) := by
  unfold encodeBlockBits specBlockBits
  cases hd : dcBits (wrapI16 (b.getD 0 0 - p)) l <;> simp [Except.map]

theorem encodeAll_spec : ∀ (mcus : List MCU) (py pcb pcr : Int),
    Except.map Prod.snd (encodeAllMcus mcus (py, pcb, pcr)) =
      specEncodeMcus mcus py pcb pcr := by
  intro mcus
  induction mcus with
  | nil => intro py pcb pcr; rfl
  | cons m rest ih =>
    intro py pcb pcr
    have hy := encodeBlock_spec m.1 true py
    have hcb := encodeBlock_spec m.2.1 false pcb
    have hcr := encodeBlock_spec m.2.2 false pcr
    simp only [encodeAllMcus, encodeMcuBits, specEncodeMcus]
    rw [hy, hcb, hcr, ← ih (m.1.getD 0 0) (m.2.1.getD 0 0) (m.2.2.getD 0 0)]
    cases h1 : specBlockBits m.1 (wrapI16 (m.1.getD 0 0 - py)) true with
    | error e => simp [Except.map]
    | ok yb =>
      cases h2 : specBlockBits m.2.1 (wrapI16 (m.2.1.getD 0 0 - pcb)) false with
      | error e => simp [Except.map]
      | ok cbb =>
        cases h3 : specBlockBits m.2.2 (wrapI16 (m.2.2.getD 0 0 - pcr)) false with
        | error e => simp [Except.map]
        | ok crb =>
          simp only [Except.map]
          cases hr : encodeAllMcus rest
              (m.1.getD 0 0, m.2.1.getD 0 0, m.2.2.getD 0 0) with
          | error e => simp [Except.map]
          | ok r2 =>
            obtain ⟨p'', bs'⟩ := r2
            simp [Except.map, List.append_assoc]

/-- C4: for every call passing the boundary checks, the emitted stream is the
one of the stateless reference encoder `specEncodeMcus`: the three DC
predictors start at zero, every block's emitted DC value is the (`i16`)
difference `block[0] - predictor` where the predictor is the previous block's
`block[0]` for that component (zero for the first macroblock), and each
macroblock contributes its luma, Cb and Cr blocks in that order to the one
shared bitstream. -/
theorem C4_dc_predictors (px : List Nat) (w : Nat) (lt ct : List Nat)
    (h1 : lt.length = 64) (h2 : ct.length = 64) (h3 : px.length = w * 8 * 4) :
    process_strip px w lt ct =
      Except.map (fun writes => (BW.new.writeMany writes).finish)
        (specEncodeMcus (stripMcus px w lt ct) 0 0 0) := by
  rw [process_strip, if_pos h1, if_pos h2, if_pos h3,
    ← encodeAll_spec (stripMcus px w lt ct) 0 0 0]
  cases hm : encodeAllMcus (stripMcus px w lt ct) (0, 0, 0) with
  | error e => simp [Except.map]
  | ok r =>
    obtain ⟨p, ws⟩ := r
    simp [Except.map]

/-- Concrete instance of C4 at a width-8 all-zero strip with all-ones
tables. -/
theorem C4_dc_predictors_witness :
    process_strip zeroPixels8 8 onesTable onesTable =
      Except.map (fun writes => (BW.new.writeMany writes).finish)
        (specEncodeMcus (stripMcus zeroPixels8 8 onesTable onesTable) 0 0 0) :=
  C4_dc_predictors zeroPixels8 8 onesTable onesTable (by decide) (by decide)
    (by decide)

theorem pixelRGB_alpha {px px' : List Nat} (hlen : px.length = px'.length)
    (h : ∀ i, i < px.length → i % 4 ≠ 3 → px.getD i 0 = px'.getD i 0)
    (w x idx : Nat) : pixelRGB px w x idx = pixelRGB px' w x idx := by
  have hag : ∀ i, i % 4 ≠ 3 → px.getD i 0 = px'.getD i 0 := by
    intro i hi
    by_cases hl : i < px.length
    · exact h i hl hi
    · rw [List.getD_eq_default _ _ (by omega), List.getD_eq_default _ _ (by omega)]
  simp only [pixelRGB]
  rw [hag ((idx / 8 * w + sampleCol w x (idx % 8)) * 4) (by omega),
    hag ((idx / 8 * w + sampleCol w x (idx % 8)) * 4 + 1) (by omega),
    hag ((idx / 8 * w + sampleCol w x (idx % 8)) * 4 + 2) (by omega)]

theorem rgb_block_alpha {px px' : List Nat} (hlen : px.length = px'.length)
    (h : ∀ i, i < px.length → i % 4 ≠ 3 → px.getD i 0 = px'.getD i 0)
    (w x : Nat) :
    rgb_to_ycbcr_block px w x = rgb_to_ycbcr_block px' w x := by
  have hp : pixelRGB px w x = pixelRGB px' w x :=
    funext (fun idx => pixelRGB_alpha hlen h w x idx)
  unfold rgb_to_ycbcr_block
  rw [hp]

theorem stripMcus_alpha {px px' : List Nat} (hlen : px.length = px'.length)
    (h : ∀ i, i < px.length → i % 4 ≠ 3 → px.getD i 0 = px'.getD i 0)
    (w : Nat) (lt ct : List Nat) :
    stripMcus px w lt ct = stripMcus px' w lt ct := by
  have hb : rgb_to_ycbcr_block px w = rgb_to_ycbcr_block px' w :=
    funext (fun x => rgb_block_alpha hlen h w x)
  unfold stripMcus
  rw [hb]

/-- C10: the output of `process_strip` is independent of the alpha channel:
two pixel buffers of the same length agreeing on every byte whose offset is
not 3 modulo 4 (the R, G and B bytes of every RGBA pixel) produce identical
results. -/
theorem C10_alpha_independence (px px' : List Nat) (w : Nat)
    (lt ct : List Nat) (hlen : px.length = px'.length)
    (h : ∀ i, i < px.length → i % 4 ≠ 3 → px.getD i 0 = px'.getD i 0) :
    process_strip px w lt ct = process_strip px' w lt ct := by
  unfold process_strip
  rw [hlen, stripMcus_alpha hlen h w lt ct]

/-- Concrete instance of C10: an all-zero width-1 strip against the same
strip with all alpha bytes set to 7. -/
theorem C10_alpha_witness :
    process_strip alphaPixelsA 1 onesTable onesTable =
      process_strip alphaPixelsB 1 onesTable onesTable :=
  C10_alpha_independence alphaPixelsA alphaPixelsB 1 onesTable onesTable
    (by decide) (by decide)

set_option maxHeartbeats 4000000 in
/-- C2 counterexample: a call whose two tables have exactly 64 entries and
whose pixel buffer has exactly `width * 8 * 4` bytes can still fail: with a
zero first luma quantization step, the IEEE division and saturating cast
send the quantized DC to −32768, the DC difference categorizes to class 16,
and the 12-entry DC code table index panics
(`Except.error StripError.dcCategoryOutOfRange` in this model). -/
theorem C2_counterexample :
    cexLumaTable.length = 64 ∧ onesTable.length = 64 ∧
      zeroPixels8.length = 8 * 8 * 4 ∧
      isDcCategoryError (process_strip zeroPixels8 8 cexLumaTable onesTable) =
        true := by
  refine ⟨by decide, by decide, by decide, by decide⟩

set_option maxHeartbeats 4000000 in
/-- C8 counterexample: the 64-entry luma table whose first entry is zero
passes the entry validation (the call is not rejected with a size error),
the quantizer is invoked with the zero entry and saturates the DC
coefficient to −32768, and the call then dies on the DC class table index —
so positivity is not validated at the pipeline entry. -/
theorem C8_counterexample :
    cexLumaTable.getD 0 0 = 0 ∧ cexLumaTable.length = 64 ∧
      (quantize (forward_dct (rgb_to_ycbcr_block zeroPixels8 8 0).1)
        cexLumaTable).getD 0 0 = -32768 ∧
      isDcCategoryError (process_strip zeroPixels8 8 cexLumaTable onesTable) =
        true := by
  refine ⟨by decide, by decide, by decide, by decide⟩
